import Mathlib

/-!
Verification of the ParameterGrid component (src/model_selection.py).

The embedding below models the Python class ParameterGrid as a collection of
pure functions over explicit data types:

* a Python scalar value appearing inside a parameter value list is a PyVal;
* a grid (a Python dict whose values are nested dicts or lists) is an
  EntryList, a key-ordered association structure mirroring dict insertion
  order; a dict value is a GridVal;
* the constructor argument (dict, list of dicts, or anything else) is a
  GridSpec;
* the normalized form stored in self.items is, per grid, a list of
  (path, value list) pairs: the Python code keeps two parallel lists
  (keys, values) that are always built together and consumed by zip or by
  positional indexing with a common index, which is represented here as a
  single list of pairs (GridItems);
* a produced parameter combination (a nested Python dict) is a PDict;
* Python exceptions are modelled with Except PGError: TypeError becomes
  PGError.typeError, ValueError becomes PGError.valueError and IndexError
  becomes PGError.indexError;
* the generator functions (the body of the iter protocol, and the body of
  the getitem method, which contains a yield statement and therefore
  returns a generator in the source) are modelled by their denotation: the
  list of values they yield when exhausted, or the exception they raise.

Python integer arithmetic on possibly-negative indices uses floor division
and sign-of-divisor remainder, which are Int.fdiv and Int.fmod.
-/

/-- A scalar Python value occurring in a parameter value list. -/
inductive PyVal where
  | int (n : Int)
  | bool (b : Bool)
  | str (s : String)
  deriving DecidableEq, Repr

/-- The Python exceptions raised by the source file. -/
inductive PGError where
  | typeError
  | valueError
  | indexError
  deriving DecidableEq, Repr

mutual
/-- A value of a grid dict: a nested dict, a list of candidate values,
or anything else (a shape the source rejects with TypeError). -/
inductive GridVal where
  | dict (entries : EntryList)
  | vlist (vals : List PyVal)
  | other

/-- A grid dict in insertion order: keys are unique in actual Python
dicts, which is stated where needed through uniqKeysEntries. -/
inductive EntryList where
  | nil
  | cons (key : String) (value : GridVal) (rest : EntryList)
end

/-- The argument of the ParameterGrid constructor: a dict, a list of
dicts, or a value of any other type. -/
inductive GridSpec where
  | dict (g : EntryList)
  | glist (gs : List EntryList)
  | other

/-- The argument passed to the getitem method: an int or anything else. -/
inductive IndexArg where
  | int (i : Int)
  | notInt

/-- A node of a produced combination: either a chosen value or a nested
dict. -/
inductive PVal where
  | val (v : PyVal)
  | dict (entries : List (String × PVal))
  deriving Repr

/-- A produced combination (a Python dict in insertion order). -/
abbrev PDict := List (String × PVal)

/-- The normalized form of one grid: the (keys, values) pair of parallel
lists built by extract_items, as a list of (path, value list) pairs. -/
abbrev GridItems := List (List String × List PyVal)

/-- Error-propagating map, the behaviour of list(map(f, xs)) when f can
raise: elements are produced left to right and the first exception
propagates. -/
def mapME (f : α → Except PGError β) : List α → Except PGError (List β)
  | [] => Except.ok []
  | a :: rest =>
    match f a with
    | Except.error e => Except.error e
    | Except.ok b =>
      match mapME f rest with
      | Except.error e => Except.error e
      | Except.ok bs => Except.ok (b :: bs)

mutual
/-- Processing of one (key, value) dict entry inside traverse_dict
(extract_items): a dict value recurses with the extended path prefix
(traverse_dict first rejects an empty dict), a list value is a leaf
(rejected when empty), anything else raises TypeError. -/
def extractVal (ck : List String) (k : String) : GridVal → Except PGError GridItems
  | GridVal.dict entries =>
    match entries with
    | EntryList.nil => Except.error PGError.valueError
    | es => extractEntries (ck ++ [k]) es
  | GridVal.vlist vals =>
    match vals with
    | [] => Except.error PGError.valueError
    | vs => Except.ok [(ck ++ [k], vs)]
  | GridVal.other => Except.error PGError.typeError

/-- The entry loop of traverse_dict: entries are processed in insertion
order, depth first, appending (path, value list) pairs as leaves are
reached. -/
def extractEntries (ck : List String) : EntryList → Except PGError GridItems
  | EntryList.nil => Except.ok []
  | EntryList.cons k v rest =>
    match extractVal ck k v with
    | Except.error e => Except.error e
    | Except.ok a =>
      match extractEntries ck rest with
      | Except.error e => Except.error e
      | Except.ok b => Except.ok (a ++ b)
end

/-- extract_items: traverse_dict([], grid), whose first step rejects an
empty dict. -/
def extract_items (g : EntryList) : Except PGError GridItems :=
  match g with
  | EntryList.nil => Except.error PGError.valueError
  | g => extractEntries [] g

/-- The constructor: a non-dict non-list argument raises TypeError, a
dict is wrapped in a singleton list, and extract_items runs eagerly on
every grid. -/
def mkParameterGrid : GridSpec → Except PGError (List GridItems)
  | GridSpec.other => Except.error PGError.typeError
  | GridSpec.dict g =>
    match extract_items g with
    | Except.error e => Except.error e
    | Except.ok items => Except.ok [items]
  | GridSpec.glist gs => mapME extract_items gs

/-- Python dict lookup on a produced combination. -/
def assocGet : PDict → String → Option PVal
  | [], _ => none
  | (k2, v) :: rest, k => if k2 = k then some v else assocGet rest k

/-- Python dict assignment on a produced combination: an existing key is
updated in place, a new key is appended at the end. -/
def assocSet : PDict → String → PVal → PDict
  | [], k, v => [(k, v)]
  | (k2, v2) :: rest, k, v =>
    if k2 = k then (k, v) :: rest else (k2, v2) :: assocSet rest k v

/-- One iteration of the generate_params inner loop: walk the key path,
creating intermediate dicts for missing keys, and write the value at the
last key. Walking into a non-dict raises TypeError (in Python, indexing
or membership-testing a scalar); an empty path would read key_list[-1]
of an empty list, an IndexError. Neither arises for paths produced by
extract_items. -/
def setPath : PDict → List String → PyVal → Except PGError PDict
  | _, [], _ => Except.error PGError.indexError
  | d, [k], v => Except.ok (assocSet d k (PVal.val v))
  | d, k :: k2 :: rest, v =>
    match assocGet d k with
    | some (PVal.val _) => Except.error PGError.typeError
    | some (PVal.dict sub) =>
      match setPath sub (k2 :: rest) v with
      | Except.error e => Except.error e
      | Except.ok sub2 => Except.ok (assocSet d k (PVal.dict sub2))
    | none =>
      match setPath [] (k2 :: rest) v with
      | Except.error e => Except.error e
      | Except.ok sub2 => Except.ok (assocSet d k (PVal.dict sub2))

/-- The generate_params outer loop over zip(keys, values). -/
def insertAll : PDict → List (List String × PyVal) → Except PGError PDict
  | d, [] => Except.ok d
  | d, kv :: rest =>
    match setPath d kv.1 kv.2 with
    | Except.error e => Except.error e
    | Except.ok d2 => insertAll d2 rest

/-- generate_params(keys, values): build a fresh nested dict assigning
values[i] at path keys[i]. -/
def generate_params (keys : List (List String)) (values : List PyVal) :
    Except PGError PDict :=
  insertAll [] (keys.zip values)

/-- itertools.product over the value lists: the first list is the outer
loop, the last list varies fastest. product of no lists yields one empty
tuple. -/
def cartProd : List (List PyVal) → List (List PyVal)
  | [] => [[]]
  | vs :: rest => (vs.map (fun v => (cartProd rest).map (fun t => v :: t))).flatten

/-- The iter protocol restricted to one grid: generate_params applied to
every tuple of the cartesian product. -/
def iterGrid (g : GridItems) : Except PGError (List PDict) :=
  mapME (fun tup => generate_params (g.map Prod.fst) tup) (cartProd (g.map Prod.snd))

/-- The denotation of the iter generator: the combinations of every grid
in order, concatenated. -/
def iterPG (items : List GridItems) : Except PGError (List PDict) :=
  match mapME iterGrid items with
  | Except.error e => Except.error e
  | Except.ok ls => Except.ok ls.flatten

/-- functools.reduce(operator.mul, l) with no initializer: raises
TypeError on an empty sequence, otherwise folds from the first element. -/
def reduce1 : List Nat → Except PGError Nat
  | [] => Except.error PGError.typeError
  | x :: rest => Except.ok (List.foldl (fun a b => a * b) x rest)

/-- self.product applied to the value-list lengths of one grid. -/
def gridSize (g : GridItems) : Except PGError Nat :=
  reduce1 (g.map (fun pr => pr.2.length))

/-- The len protocol: the sum over grids of the product of value-list
lengths. -/
def lenPG (items : List GridItems) : Except PGError Nat :=
  match mapME gridSize items with
  | Except.error e => Except.error e
  | Except.ok ns => Except.ok (List.foldl (fun a b => a + b) 0 ns)

/-- Python sequence indexing values[i][j] for the in-range indices the
decomposition produces (j = ind mod way lies in [0, way) whenever
way > 0). -/
def pickVal (vs : List PyVal) (j : Int) : PyVal :=
  vs.getD j.toNat (PyVal.int 0)

/-- The mixed-radix digit loop of the getitem method: for i from the last
value list down to the first, select values[i][ind mod ways[i]] and
replace ind by floor division ind // ways[i] (Python semantics: fmod and
fdiv). Returns the selected values and the final value of ind. -/
def decompose : List (List PyVal) → Int → List PyVal × Int
  | [], ind => ([], ind)
  | vs :: rest, ind =>
    match decompose rest ind with
    | (tail, ind2) =>
      (pickVal vs (Int.fmod ind2 (vs.length : Int)) :: tail,
       Int.fdiv ind2 (vs.length : Int))

/-- The grid-walking loop of the getitem generator: skip whole grids
while ind >= subtotal; otherwise decompose ind, yield the combination
and, since the loop has no break or return after its yield, continue
with the next grid using the final (divided-down) value of ind. -/
def getitemLoop : List GridItems → Int → Except PGError (List PDict)
  | [], _ => Except.ok []
  | g :: rest, ind =>
    match gridSize g with
    | Except.error e => Except.error e
    | Except.ok st =>
      if (st : Int) ≤ ind then getitemLoop rest (ind - (st : Int))
      else
        match decompose (g.map Prod.snd) ind with
        | (vals, ind2) =>
          match generate_params (g.map Prod.fst) vals with
          | Except.error e => Except.error e
          | Except.ok d =>
            match getitemLoop rest ind2 with
            | Except.error e => Except.error e
            | Except.ok more => Except.ok (d :: more)

/-- The denotation of the getitem generator body: the non-integer check,
the total, the Python-style negative-index adjustment, the single
upper-bound check (there is no second lower-bound check in the source),
then the grid-walking loop. -/
def getitemPG (items : List GridItems) : IndexArg → Except PGError (List PDict)
  | IndexArg.notInt => Except.error PGError.typeError
  | IndexArg.int ind =>
    match lenPG items with
    | Except.error e => Except.error e
    | Except.ok total =>
      let ind2 := if ind < 0 then ind + (total : Int) else ind
      if (total : Int) ≤ ind2 then Except.error PGError.indexError
      else getitemLoop items ind2

/-- The single-grid example: a maps to a nested dict with value lists b
and c. -/
def spec3 : GridSpec :=
  GridSpec.dict
    (EntryList.cons "a"
      (GridVal.dict
        (EntryList.cons "b" (GridVal.vlist [PyVal.int 1, PyVal.int 2])
          (EntryList.cons "c" (GridVal.vlist [PyVal.bool true, PyVal.bool false])
            EntryList.nil)))
      EntryList.nil)


/-- Normalized form of the single grid of spec3. -/
def g3 : GridItems :=
  [(["a", "b"], [PyVal.int 1, PyVal.int 2]),
   (["a", "c"], [PyVal.bool true, PyVal.bool false])]

/-- Combination a.b = 1, a.c = True. -/
def c3a : PDict :=
  [("a", PVal.dict [("b", PVal.val (PyVal.int 1)), ("c", PVal.val (PyVal.bool true))])]

/-- Combination a.b = 1, a.c = False. -/
def c3b : PDict :=
  [("a", PVal.dict [("b", PVal.val (PyVal.int 1)), ("c", PVal.val (PyVal.bool false))])]

/-- Combination a.b = 2, a.c = True. -/
def c3c : PDict :=
  [("a", PVal.dict [("b", PVal.val (PyVal.int 2)), ("c", PVal.val (PyVal.bool true))])]

/-- Combination a.b = 2, a.c = False. -/
def c3d : PDict :=
  [("a", PVal.dict [("b", PVal.val (PyVal.int 2)), ("c", PVal.val (PyVal.bool false))])]

/-- The two-grid example from the docstring: one grid with kernel linear,
one with kernel rbf and gamma in 1, 10. -/
def spec4 : GridSpec :=
  GridSpec.glist
    [EntryList.cons "kernel" (GridVal.vlist [PyVal.str "linear"]) EntryList.nil,
     EntryList.cons "kernel" (GridVal.vlist [PyVal.str "rbf"])
       (EntryList.cons "gamma" (GridVal.vlist [PyVal.int 1, PyVal.int 10])
         EntryList.nil)]

/-- Normalized form of the first grid of spec4. -/
def g41 : GridItems := [(["kernel"], [PyVal.str "linear"])]

/-- Normalized form of the second grid of spec4. -/
def g42 : GridItems :=
  [(["kernel"], [PyVal.str "rbf"]), (["gamma"], [PyVal.int 1, PyVal.int 10])]

/-- Combination kernel = linear. -/
def c4a : PDict := [("kernel", PVal.val (PyVal.str "linear"))]

/-- Combination kernel = rbf, gamma = 1. -/
def c4b : PDict :=
  [("kernel", PVal.val (PyVal.str "rbf")), ("gamma", PVal.val (PyVal.int 1))]

/-- Combination kernel = rbf, gamma = 10. -/
def c4c : PDict :=
  [("kernel", PVal.val (PyVal.str "rbf")), ("gamma", PVal.val (PyVal.int 10))]

/-- A one-parameter example grid a in [1, 2]. -/
def spec5 : GridSpec :=
  GridSpec.dict (EntryList.cons "a" (GridVal.vlist [PyVal.int 1, PyVal.int 2]) EntryList.nil)

/-- Normalized form of spec5. -/
def g5 : GridItems := [(["a"], [PyVal.int 1, PyVal.int 2])]

/-- Combination a = 2, the last point of spec5. -/
def c5b : PDict := [("a", PVal.val (PyVal.int 2))]

/-- Claim C3: for the single-grid input with a.b in [1, 2] and
a.c in [True, False], iteration yields exactly the four combinations
(1, True), (1, False), (2, True), (2, False) in that order: depth-first
key order with the last-discovered path varying fastest. -/
theorem c3_single_grid_iteration_order :
    mkParameterGrid spec3 = Except.ok [g3] ∧
    iterPG [g3] = Except.ok [c3a, c3b, c3c, c3d] :=
  ⟨rfl, rfl⟩

/-- Claim C4: for the two-grid spec, the enumerated space is the
concatenation of the per-grid spaces in input order; the length is 3; and
the subscript at index 1 yields exactly the combination kernel = rbf,
gamma = 1. -/
theorem c4_two_grid_concatenation :
    mkParameterGrid spec4 = Except.ok [g41, g42] ∧
    iterPG [g41, g42] = Except.ok [c4a, c4b, c4c] ∧
    lenPG [g41, g42] = Except.ok 3 ∧
    getitemPG [g41, g42] (IndexArg.int 1) = Except.ok [c4b] :=
  ⟨rfl, rfl, rfl, rfl⟩

/-- Claim C1 (code bug): subscripting does not return a single
Combination. The getitem method is a generator function whose loop keeps
walking after its yield, so for the two-grid spec the subscript at index
0 yields two combinations: the one at iteration position 0, then the
index-0 combination of the following grid. -/
theorem c1_getitem_is_generator_with_extra_yield :
    iterPG [g41, g42] = Except.ok [c4a, c4b, c4c] ∧
    getitemPG [g41, g42] (IndexArg.int 0) = Except.ok [c4a, c4b] :=
  ⟨rfl, rfl⟩

/-- Claim C5 (code bug): after the negative-index adjustment there is no
second lower-bound check, so on the grid a in [1, 2] (total 2) the index
-3 adjusts to -1, escapes the single check ind >= total, and the Python
floor-division and remainder semantics make the generator yield the last
combination a = 2 instead of raising IndexError; the upper bound
at(grid, length(grid)) does produce IndexError. -/
theorem c5_negative_out_of_range_not_rejected :
    mkParameterGrid spec5 = Except.ok [g5] ∧
    lenPG [g5] = Except.ok 2 ∧
    getitemPG [g5] (IndexArg.int 2) = Except.error PGError.indexError ∧
    getitemPG [g5] (IndexArg.int (-3)) = Except.ok [c5b] :=
  ⟨rfl, rfl, rfl, rfl⟩

/-- Claim C7 (code bug): the non-integer check does reject a non-int
index with TypeError, but only inside the generator body; because the
getitem method is a generator function, the check runs at first
consumption, not synchronously at the subscript call. -/
theorem c7_non_integer_index_type_error :
    getitemPG [g41, g42] IndexArg.notInt = Except.error PGError.typeError :=
  rfl

/-- Claim C6: for a grid of length at least 1, index -1 is interpreted
Python-style from the end: the subscript at -1 behaves exactly as the
subscript at length - 1 (the adjustment ind += total is the only use of
the sign of the index). -/
theorem c6_negative_one_is_last (items : List GridItems) (n : Nat)
    (h1 : lenPG items = Except.ok n) (h2 : 1 ≤ n) :
    getitemPG items (IndexArg.int (-1)) =
      getitemPG items (IndexArg.int ((n : Int) - 1)) := by
  unfold getitemPG
  rw [h1]
  have e1 : (-1 : Int) + (n : Int) = (n : Int) - 1 := by omega
  have e2 : ¬ ((n : Int) - 1 < 0) := by omega
  simp only [e1, e2, if_true, if_false, reduceCtorEq]
  norm_num

/-- Witness for C6 at the two-grid example of length 3. -/
theorem c6_negative_one_is_last_witness :
    lenPG [g41, g42] = Except.ok 3 ∧ 1 ≤ 3 ∧
    getitemPG [g41, g42] (IndexArg.int (-1)) =
      getitemPG [g41, g42] (IndexArg.int (((3 : Nat) : Int) - 1)) :=
  ⟨rfl, by decide, c6_negative_one_is_last [g41, g42] 3 rfl (by decide)⟩

/-- A successful mapME relates input and output elementwise. -/
theorem mapME_ok_forall2 (f : α → Except PGError β) (l : List α) (l2 : List β)
    (h : mapME f l = Except.ok l2) :
    List.Forall₂ (fun a b => f a = Except.ok b) l l2 := by
  induction l generalizing l2 with
  | nil =>
    simp only [mapME] at h
    cases h
    exact List.Forall₂.nil
  | cons a rest ih =>
    simp only [mapME] at h
    cases hf : f a with
    | error e => rw [hf] at h; cases h
    | ok b =>
      rw [hf] at h
      cases hr : mapME f rest with
      | error e => rw [hr] at h; cases h
      | ok bs =>
        rw [hr] at h
        cases h
        exact List.Forall₂.cons hf (ih bs hr)

/-- mapME succeeds when f succeeds on every element. -/
theorem mapME_ok_of_forall (f : α → Except PGError β) (l : List α)
    (h : ∀ a ∈ l, ∃ b, f a = Except.ok b) :
    ∃ l2, mapME f l = Except.ok l2 := by
  induction l with
  | nil => exact ⟨[], rfl⟩
  | cons a rest ih =>
    obtain ⟨b, hb⟩ := h a (List.mem_cons_self a rest)
    obtain ⟨bs, hbs⟩ := ih (fun x hx => h x (List.mem_cons_of_mem a hx))
    exact ⟨b :: bs, by simp only [mapME, hb, hbs]⟩

/-- Membership of a key in a grid dict. -/
def keyMem (k : String) : EntryList → Bool
  | EntryList.nil => false
  | EntryList.cons k2 _ rest => k2 == k || keyMem k rest

mutual
/-- Key uniqueness at every dict level below a grid value. Actual Python
dicts always satisfy this; it is the structural invariant of a mapping
that the embedding has to state explicitly. -/
def uniqKeysVal : GridVal → Bool
  | GridVal.dict es => uniqKeysEntries es
  | GridVal.vlist _ => true
  | GridVal.other => true

/-- Key uniqueness of a grid dict, at this level and recursively. -/
def uniqKeysEntries : EntryList → Bool
  | EntryList.nil => true
  | EntryList.cons k v rest =>
    !(keyMem k rest) && uniqKeysVal v && uniqKeysEntries rest
end

/-- Key uniqueness over a whole constructor argument. -/
def uniqKeysSpec : GridSpec → Bool
  | GridSpec.dict g => uniqKeysEntries g
  | GridSpec.glist gs => gs.all uniqKeysEntries
  | GridSpec.other => true

mutual
/-- Every value below is a dict or a list (no other-typed value). -/
def dictListOnlyVal : GridVal → Bool
  | GridVal.dict es => dictListOnlyEntries es
  | GridVal.vlist _ => true
  | GridVal.other => false

/-- dictListOnlyVal over a grid dict. -/
def dictListOnlyEntries : EntryList → Bool
  | EntryList.nil => true
  | EntryList.cons _ v rest => dictListOnlyVal v && dictListOnlyEntries rest
end

mutual
/-- Some dict below is empty or some value list below is empty. -/
def hasEmptyVal : GridVal → Bool
  | GridVal.dict EntryList.nil => true
  | GridVal.dict es => hasEmptyEntries es
  | GridVal.vlist vals => vals.isEmpty
  | GridVal.other => false

/-- hasEmptyVal over the entries of a grid dict. -/
def hasEmptyEntries : EntryList → Bool
  | EntryList.nil => false
  | EntryList.cons _ v rest => hasEmptyVal v || hasEmptyEntries rest
end

/-- A grid dict that is empty, or has an empty dict or an empty value
list somewhere below. -/
def hasEmptyGrid (g : EntryList) : Bool :=
  match g with
  | EntryList.nil => true
  | g => hasEmptyEntries g

/-- dictListOnly over a whole constructor argument. -/
def dictListOnlySpec : GridSpec → Bool
  | GridSpec.dict g => dictListOnlyEntries g
  | GridSpec.glist gs => gs.all dictListOnlyEntries
  | GridSpec.other => false

/-- hasEmpty over a whole constructor argument: an empty mapping or an
empty value list occurs at some level (an empty list of grids does not
count: it is a valid spec). -/
def hasEmptySpec : GridSpec → Bool
  | GridSpec.dict g => hasEmptyGrid g
  | GridSpec.glist gs => gs.any hasEmptyGrid
  | GridSpec.other => false

/-- One key path extends into another (it is an initial segment of it).
This is the relation that makes generate_params fail: writing a longer
path after a path that is an initial segment of it walks into a value. -/
def leadsInto (p q : List String) : Prop := ∃ t, p ++ t = q

/-- Neither path is an initial segment of the other. -/
def NoPre (a b : List String) : Prop := ¬ leadsInto a b ∧ ¬ leadsInto b a

/-- Cancelling a common prefix of a leadsInto relation. -/
theorem leadsInto_cancel (ck a b : List String)
    (h : leadsInto (ck ++ a) (ck ++ b)) : leadsInto a b := by
  obtain ⟨t, ht⟩ := h
  rw [List.append_assoc] at ht
  exact ⟨t, List.append_cancel_left ht⟩

/-- An initial-segment relation between nonempty paths forces equal
heads. -/
theorem leadsInto_cons_eq (k k2 : String) (s s2 : List String)
    (h : leadsInto (k :: s) (k2 :: s2)) : k = k2 := by
  obtain ⟨t, ht⟩ := h
  simp only [List.cons_append] at ht
  exact (List.cons.injEq k (s ++ t) k2 s2).mp ht |>.1

/-- Two paths that agree on a common prefix and then pass through
distinct keys are incomparable. -/
theorem noPre_of_ne (ck : List String) (k k2 : String) (s s2 : List String)
    (h : k ≠ k2) : NoPre (ck ++ k :: s) (ck ++ k2 :: s2) := by
  constructor
  · intro hp
    exact h (leadsInto_cons_eq k k2 s s2 (leadsInto_cancel ck (k :: s) (k2 :: s2) hp))
  · intro hp
    exact h ((leadsInto_cons_eq k2 k s2 s (leadsInto_cancel ck (k2 :: s2) (k :: s) hp)).symm)

mutual
/-- A successful extractVal output is nonempty; every produced pair has
path ck ++ k :: s and a nonempty value list; and under unique keys the
paths are pairwise incomparable. -/
theorem extractVal_main (ck : List String) (k : String) (v : GridVal)
    (out : GridItems) (h : extractVal ck k v = Except.ok out) :
    out ≠ [] ∧
    (∀ pr ∈ out, (∃ s, pr.1 = ck ++ k :: s) ∧ pr.2 ≠ []) ∧
    (uniqKeysVal v = true → List.Pairwise (fun a b => NoPre a.1 b.1) out) := by
  cases v with
  | dict entries =>
    cases entries with
    | nil => simp [extractVal] at h
    | cons k2 v2 rest =>
      simp only [extractVal] at h
      have hm := extractEntries_main (ck ++ [k]) (EntryList.cons k2 v2 rest) out h
      refine ⟨hm.1 (by intro hx; cases hx), ?_, ?_⟩
      · intro pr hpr
        obtain ⟨⟨k3, s, _, hpath⟩, hval⟩ := hm.2.1 pr hpr
        refine ⟨⟨k3 :: s, ?_⟩, hval⟩
        rw [hpath, List.append_assoc]
        rfl
      · intro hu
        simp only [uniqKeysVal] at hu
        exact hm.2.2 hu
  | vlist vals =>
    cases vals with
    | nil => simp [extractVal] at h
    | cons x xs =>
      simp only [extractVal] at h
      cases h
      refine ⟨by simp, ?_, fun _ => ?_⟩
      · intro pr hpr
        simp only [List.mem_singleton] at hpr
        subst hpr
        exact ⟨⟨[], rfl⟩, by simp⟩
      · simp
  | other => simp [extractVal] at h

/-- Same facts for the entry loop: a successful output over a nonempty
entry list is nonempty, every produced path passes through a key of the
list, and under unique keys the paths are pairwise incomparable. -/
theorem extractEntries_main (ck : List String) (es : EntryList)
    (out : GridItems) (h : extractEntries ck es = Except.ok out) :
    (es ≠ EntryList.nil → out ≠ []) ∧
    (∀ pr ∈ out, (∃ k2 s, keyMem k2 es = true ∧ pr.1 = ck ++ k2 :: s) ∧ pr.2 ≠ []) ∧
    (uniqKeysEntries es = true → List.Pairwise (fun a b => NoPre a.1 b.1) out) := by
  cases es with
  | nil =>
    simp only [extractEntries] at h
    cases h
    exact ⟨fun hx => absurd rfl hx, by simp, fun _ => List.Pairwise.nil⟩
  | cons k v rest =>
    simp only [extractEntries] at h
    cases hv : extractVal ck k v with
    | error e => rw [hv] at h; cases h
    | ok a =>
      rw [hv] at h
      cases hr : extractEntries ck rest with
      | error e => rw [hr] at h; cases h
      | ok b =>
        rw [hr] at h
        cases h
        have ha := extractVal_main ck k v a hv
        have hb := extractEntries_main ck rest b hr
        refine ⟨?_, ?_, ?_⟩
        · intro _ hx
          exact ha.1 (List.append_eq_nil.mp hx).1
        · intro pr hpr
          rcases List.mem_append.mp hpr with hma | hmb
          · obtain ⟨⟨s, hs⟩, hval⟩ := ha.2.1 pr hma
            exact ⟨⟨k, s, by simp [keyMem], hs⟩, hval⟩
          · obtain ⟨⟨k2, s, hk2, hs⟩, hval⟩ := hb.2.1 pr hmb
            exact ⟨⟨k2, s, by simp [keyMem, hk2], hs⟩, hval⟩
        · intro hu
          simp only [uniqKeysEntries, Bool.and_eq_true, Bool.not_eq_true'] at hu
          obtain ⟨⟨hknot, huv⟩, hurest⟩ := hu
          rw [List.pairwise_append]
          refine ⟨ha.2.2 huv, hb.2.2 hurest, ?_⟩
          intro p hp q hq
          obtain ⟨⟨s, hs⟩, _⟩ := ha.2.1 p hp
          obtain ⟨⟨k2, s2, hk2, hs2⟩, _⟩ := hb.2.1 q hq
          rw [hs, hs2]
          apply noPre_of_ne
          intro hkk
          subst hkk
          rw [hk2] at hknot
          cases hknot
end

/-- There is a value (not a nested dict) at path q of the combination
being built. Walking into such a position is what makes setPath raise. -/
def leafAt : PDict → List String → Bool
  | _, [] => false
  | d, [k] =>
    match assocGet d k with
    | some (PVal.val _) => true
    | _ => false
  | d, k :: k2 :: rest =>
    match assocGet d k with
    | some (PVal.dict sub) => leafAt sub (k2 :: rest)
    | _ => false

/-- Lookup after assignment at the same key. -/
theorem assocGet_assocSet_self (d : PDict) (k : String) (v : PVal) :
    assocGet (assocSet d k v) k = some v := by
  induction d with
  | nil => simp [assocGet, assocSet]
  | cons pr rest ih =>
    obtain ⟨k2, v2⟩ := pr
    by_cases hk : k2 = k
    · subst hk
      simp [assocGet, assocSet]
    · simp [assocGet, assocSet, hk, ih]


/-- Lookup after assignment at a different key. -/
theorem assocGet_assocSet_ne (d : PDict) (k k2 : String) (v : PVal)
    (h : k2 ≠ k) : assocGet (assocSet d k v) k2 = assocGet d k2 := by
  have hne : ¬ k = k2 := fun e => h e.symm
  induction d with
  | nil => simp [assocGet, assocSet, hne]
  | cons pr rest ih =>
    obtain ⟨k3, v3⟩ := pr
    by_cases hk : k3 = k
    · have h32 : ¬ k3 = k2 := by rw [hk]; exact hne
      simp only [assocSet, if_pos hk, assocGet, if_neg hne, if_neg h32]
    · by_cases h32 : k3 = k2
      · simp only [assocSet, if_neg hk, assocGet, if_pos h32]
      · simp only [assocSet, if_neg hk, assocGet, if_neg h32, ih]

/-- The empty dict has no leaf position. -/
theorem leafAt_nil (q : List String) : leafAt [] q = false := by
  match q with
  | [] => rfl
  | [k] => rfl
  | k :: k2 :: rest => rfl

/-- setPath succeeds on a nonempty path when no proper initial segment
of the path carries a value. -/
theorem setPath_ok (p : List String) (d : PDict) (v : PyVal)
    (hp : p ≠ [])
    (hl : ∀ j, 0 < j → j < p.length → leafAt d (p.take j) = false) :
    ∃ d2, setPath d p v = Except.ok d2 := by
  match p with
  | [] => exact absurd rfl hp
  | [k] => exact ⟨assocSet d k (PVal.val v), rfl⟩
  | k :: k2 :: rest =>
    have hk : leafAt d [k] = false := by
      have h1 := hl 1 (by omega) (by simp)
      simpa using h1
    cases hget : assocGet d k with
    | none =>
      obtain ⟨d2, hd2⟩ :=
        setPath_ok (k2 :: rest) [] v (by simp) (fun j hj1 hj2 => leafAt_nil _)
      exact ⟨assocSet d k (PVal.dict d2), by simp [setPath, hget, hd2]⟩
    | some pv =>
      cases pv with
      | val x =>
        exfalso
        simp [leafAt, hget] at hk
      | dict sub =>
        have hsub : ∀ j, 0 < j → j < (k2 :: rest).length →
            leafAt sub ((k2 :: rest).take j) = false := by
          intro j hj1 hj2
          cases j with
          | zero => omega
          | succ j2 =>
            have h2 := hl (j2 + 2) (by omega) (by simp at hj2 ⊢; omega)
            rw [List.take_succ_cons, List.take_succ_cons] at h2
            simpa [leafAt, hget] using h2
        obtain ⟨d2, hd2⟩ := setPath_ok (k2 :: rest) sub v (by simp) hsub
        exact ⟨assocSet d k (PVal.dict d2), by simp [setPath, hget, hd2]⟩

/-- A successful setPath creates no leaf position other than the written
path: every leaf of the result is the written path or a leaf of the
original dict. -/
theorem leafAt_setPath (p : List String) (d d2 : PDict) (v : PyVal)
    (h : setPath d p v = Except.ok d2) (q : List String)
    (hq : leafAt d2 q = true) : q = p ∨ leafAt d q = true := by
  match p with
  | [] => simp [setPath] at h
  | [k] =>
    simp only [setPath] at h
    cases h
    match q with
    | [] => simp [leafAt] at hq
    | [k1] =>
      by_cases hk : k1 = k
      · subst hk
        exact Or.inl rfl
      · right
        simp only [leafAt] at hq ⊢
        rwa [assocGet_assocSet_ne d k k1 _ hk] at hq
    | k1 :: k3 :: r2 =>
      by_cases hk : k1 = k
      · subst hk
        simp only [leafAt, assocGet_assocSet_self] at hq
        exact Bool.noConfusion hq
      · right
        simp only [leafAt] at hq ⊢
        rwa [assocGet_assocSet_ne d k k1 _ hk] at hq
  | k :: k2 :: rest =>
    cases hget : assocGet d k with
    | none =>
      cases hs : setPath [] (k2 :: rest) v with
      | error e =>
        have hred : setPath d (k :: k2 :: rest) v = Except.error e := by
          simp [setPath, hget, hs]
        rw [hred] at h
        cases h
      | ok sub2 =>
        have hred : setPath d (k :: k2 :: rest) v =
            Except.ok (assocSet d k (PVal.dict sub2)) := by
          simp [setPath, hget, hs]
        rw [hred] at h
        cases h
        match q with
        | [] => simp [leafAt] at hq
        | [k1] =>
          by_cases hk : k1 = k
          · subst hk
            simp only [leafAt, assocGet_assocSet_self] at hq
            exact Bool.noConfusion hq
          · right
            simp only [leafAt] at hq ⊢
            rwa [assocGet_assocSet_ne d k k1 _ hk] at hq
        | k1 :: k3 :: r2 =>
          by_cases hk : k1 = k
          · subst hk
            simp only [leafAt, assocGet_assocSet_self] at hq
            rcases leafAt_setPath (k2 :: rest) [] sub2 v hs (k3 :: r2) hq with heq | hleaf
            · left
              rw [heq]
            · rw [leafAt_nil] at hleaf
              cases hleaf
          · right
            simp only [leafAt] at hq ⊢
            rwa [assocGet_assocSet_ne d k k1 _ hk] at hq
    | some pv =>
      cases pv with
      | val x =>
        have hred : setPath d (k :: k2 :: rest) v = Except.error PGError.typeError := by
          simp [setPath, hget]
        rw [hred] at h
        cases h
      | dict sub =>
        cases hs : setPath sub (k2 :: rest) v with
        | error e =>
          have hred : setPath d (k :: k2 :: rest) v = Except.error e := by
            simp [setPath, hget, hs]
          rw [hred] at h
          cases h
        | ok sub2 =>
          have hred : setPath d (k :: k2 :: rest) v =
              Except.ok (assocSet d k (PVal.dict sub2)) := by
            simp [setPath, hget, hs]
          rw [hred] at h
          cases h
          match q with
          | [] => simp [leafAt] at hq
          | [k1] =>
            by_cases hk : k1 = k
            · subst hk
              simp only [leafAt, assocGet_assocSet_self] at hq
              exact Bool.noConfusion hq
            · right
              simp only [leafAt] at hq ⊢
              rwa [assocGet_assocSet_ne d k k1 _ hk] at hq
          | k1 :: k3 :: r2 =>
            by_cases hk : k1 = k
            · subst hk
              simp only [leafAt, assocGet_assocSet_self] at hq
              rcases leafAt_setPath (k2 :: rest) sub sub2 v hs (k3 :: r2) hq with heq | hleaf
              · left
                rw [heq]
              · right
                simp only [leafAt, hget]
                exact hleaf
            · right
              simp only [leafAt] at hq ⊢
              rwa [assocGet_assocSet_ne d k k1 _ hk] at hq

/-- The first component of a zip member belongs to the first list. -/
theorem mem_zip_left (l1 : List (List String)) (l2 : List PyVal)
    (kv : List String × PyVal) (h : kv ∈ l1.zip l2) : kv.1 ∈ l1 := by
  induction l1 generalizing l2 with
  | nil => simp [List.zip] at h
  | cons a rest ih =>
    cases l2 with
    | nil => simp [List.zip] at h
    | cons b l2r =>
      rw [List.zip_cons_cons] at h
      rcases List.mem_cons.mp h with heq | hmem
      · rw [heq]
        exact List.mem_cons_self a rest
      · exact List.mem_cons_of_mem a (ih l2r hmem)

/-- A pairwise relation on the first list transfers to the zip. -/
theorem pairwise_zip_left (R : List String → List String → Prop)
    (l1 : List (List String)) (l2 : List PyVal)
    (h : List.Pairwise R l1) :
    List.Pairwise (fun a b => R a.1 b.1) (l1.zip l2) := by
  induction l1 generalizing l2 with
  | nil => simp [List.zip]
  | cons a rest ih =>
    cases l2 with
    | nil => simp [List.zip]
    | cons b l2r =>
      rw [List.zip_cons_cons]
      rcases List.pairwise_cons.mp h with ⟨hhead, htail⟩
      refine List.Pairwise.cons ?_ (ih l2r htail)
      intro kv hkv
      exact hhead kv.1 (mem_zip_left rest l2r kv hkv)

/-- The generate_params outer loop succeeds when all paths are nonempty,
no earlier path is an initial segment of a later one, and the starting
dict has no leaf blocking any path. -/
theorem insertAll_ok (kvs : List (List String × PyVal)) (d : PDict)
    (h1 : ∀ kv ∈ kvs, kv.1 ≠ [])
    (h2 : List.Pairwise (fun a b => ¬ leadsInto a.1 b.1) kvs)
    (h3 : ∀ q, leafAt d q = true →
      ∀ kv ∈ kvs, ∀ j, 0 < j → j < kv.1.length → q ≠ kv.1.take j) :
    ∃ d2, insertAll d kvs = Except.ok d2 := by
  induction kvs generalizing d with
  | nil => exact ⟨d, rfl⟩
  | cons kv rest ih =>
    obtain ⟨p, v⟩ := kv
    have hstep : ∃ dd, setPath d p v = Except.ok dd := by
      apply setPath_ok p d v (h1 (p, v) (List.mem_cons_self _ _))
      intro j hj1 hj2
      cases hb : leafAt d (p.take j) with
      | false => rfl
      | true =>
        exact absurd rfl (h3 _ hb (p, v) (List.mem_cons_self _ _) j hj1 hj2)
    obtain ⟨dd, hdd⟩ := hstep
    have hrest : ∃ d2, insertAll dd rest = Except.ok d2 := by
      apply ih dd (fun kv2 hkv2 => h1 kv2 (List.mem_cons_of_mem _ hkv2))
        (List.pairwise_cons.mp h2).2
      intro q hq kv2 hkv2 j hj1 hj2 heq
      rcases leafAt_setPath p d dd v hdd q hq with heqp | hleafd
      · have hlead : leadsInto p kv2.1 := by
          refine ⟨kv2.1.drop j, ?_⟩
          rw [← heqp, heq]
          exact List.take_append_drop j kv2.1
        exact (List.pairwise_cons.mp h2).1 kv2 hkv2 hlead
      · exact h3 q hleafd kv2 (List.mem_cons_of_mem _ hkv2) j hj1 hj2 heq
    obtain ⟨d2, hd2⟩ := hrest
    exact ⟨d2, by simp [insertAll, hdd, hd2]⟩

/-- generate_params succeeds for any value assignment on a key list that
is nonempty pathwise and initial-segment free. -/
theorem generate_params_ok (keys : List (List String)) (vals : List PyVal)
    (h1 : ∀ p ∈ keys, p ≠ [])
    (h2 : List.Pairwise (fun a b => ¬ leadsInto a b) keys) :
    ∃ d, generate_params keys vals = Except.ok d := by
  apply insertAll_ok
  · intro kv hkv
    exact h1 kv.1 (mem_zip_left keys vals kv hkv)
  · exact pairwise_zip_left _ keys vals h2
  · intro q hq
    rw [leafAt_nil] at hq
    exact Bool.noConfusion hq

/-- The number of combinations of one normalized grid, in closed form. -/
def gridCount (g : GridItems) : Nat := (g.map (fun pr => pr.2.length)).prod

/-- The number of combinations of a list of grids, in closed form. -/
def prefixCount (gs : List GridItems) : Nat := (gs.map gridCount).sum

/-- The invariant extract_items establishes on a normalized grid built
from a Python dict: at least one pair, nonempty paths, nonempty value
lists, and pairwise incomparable paths. -/
def GoodGrid (g : GridItems) : Prop :=
  g ≠ [] ∧ (∀ pr ∈ g, pr.1 ≠ [] ∧ pr.2 ≠ []) ∧
  List.Pairwise (fun a b => NoPre a b) (g.map Prod.fst)

/-- Folding multiplication from a seed is the seed times the product. -/
theorem foldl_mul_eq (x : Nat) (l : List Nat) :
    List.foldl (fun a b => a * b) x l = x * l.prod := by
  induction l generalizing x with
  | nil => simp
  | cons a rest ih => simp [ih, Nat.mul_assoc]

/-- reduce with no initializer equals the product on nonempty input. -/
theorem reduce1_prod (l : List Nat) (h : l ≠ []) :
    reduce1 l = Except.ok l.prod := by
  cases l with
  | nil => exact absurd rfl h
  | cons x rest => simp [reduce1, foldl_mul_eq]

/-- Folding addition from a seed is the seed plus the sum. -/
theorem foldl_add_eq (x : Nat) (l : List Nat) :
    List.foldl (fun a b => a + b) x l = x + l.sum := by
  induction l generalizing x with
  | nil => simp
  | cons a rest ih => simp [ih, Nat.add_assoc]

/-- The per-grid subtotal computes the closed-form count on a nonempty
grid. -/
theorem gridSize_ok (g : GridItems) (h : g ≠ []) :
    gridSize g = Except.ok (gridCount g) := by
  unfold gridSize gridCount
  apply reduce1_prod
  intro hx
  exact h (by simpa using hx)

/-- The len protocol computes the closed-form count when every grid is
nonempty. -/
theorem lenPG_ok (items : List GridItems) (h : ∀ g ∈ items, g ≠ []) :
    lenPG items = Except.ok (prefixCount items) := by
  have hm : mapME gridSize items = Except.ok (items.map gridCount) := by
    induction items with
    | nil => rfl
    | cons g rest ih =>
      have hg := gridSize_ok g (h g (List.mem_cons_self _ _))
      have hr := ih (fun x hx => h x (List.mem_cons_of_mem _ hx))
      simp [mapME, hg, hr]
  simp [lenPG, hm, prefixCount, foldl_add_eq]

/-- Sum of a constant map. -/
theorem sum_map_const_nat (l : List PyVal) (c : Nat) :
    (l.map (fun _ => c)).sum = l.length * c := by
  induction l with
  | nil => simp
  | cons a rest ih => simp [ih, Nat.succ_mul, Nat.add_comm]

/-- The cartesian product has as many tuples as the product of the list
lengths. -/
theorem cartProd_length (vss : List (List PyVal)) :
    (cartProd vss).length = (vss.map List.length).prod := by
  induction vss with
  | nil => simp [cartProd]
  | cons vs rest ih =>
    simp only [cartProd, List.length_flatten, List.map_map]
    have hcongr : List.map (List.length ∘ fun v => List.map (fun t => v :: t) (cartProd rest)) vs
        = List.map (fun _ => (List.map List.length rest).prod) vs := by
      apply List.map_congr_left
      intro v hv
      simp [Function.comp, ih]
    rw [hcongr, sum_map_const_nat, List.map_cons, List.prod_cons]

/-- A Forall₂ member on the right comes from a member on the left. -/
theorem forall2_mem_right (R : α → β → Prop) (l1 : List α) (l2 : List β)
    (h : List.Forall₂ R l1 l2) (b : β) (hb : b ∈ l2) : ∃ a, a ∈ l1 ∧ R a b := by
  induction h with
  | nil => cases hb
  | @cons a2 b2 la lb hr hrest ih =>
    rcases List.mem_cons.mp hb with heq | hmem
    · subst heq
      exact ⟨a2, List.mem_cons_self _ _, hr⟩
    · obtain ⟨a, ha, har⟩ := ih hmem
      exact ⟨a, List.mem_cons_of_mem _ ha, har⟩

/-- Base facts of extract_items output: nonempty, with nonempty paths
and nonempty value lists. -/
theorem extract_items_base (gg : EntryList) (g : GridItems)
    (h : extract_items gg = Except.ok g) :
    g ≠ [] ∧ ∀ pr ∈ g, pr.1 ≠ [] ∧ pr.2 ≠ [] := by
  cases gg with
  | nil => simp [extract_items] at h
  | cons k v rest =>
    simp only [extract_items] at h
    have hm := extractEntries_main [] (EntryList.cons k v rest) g h
    refine ⟨hm.1 (by intro hx; cases hx), ?_⟩
    intro pr hpr
    obtain ⟨⟨k2, s, _, hs⟩, hval⟩ := hm.2.1 pr hpr
    refine ⟨?_, hval⟩
    rw [hs]
    simp

/-- extract_items establishes the full grid invariant under unique
keys. -/
theorem extract_items_good (gg : EntryList) (g : GridItems)
    (hu : uniqKeysEntries gg = true) (h : extract_items gg = Except.ok g) :
    GoodGrid g := by
  obtain ⟨h1, h2⟩ := extract_items_base gg g h
  refine ⟨h1, h2, ?_⟩
  cases gg with
  | nil => simp [extract_items] at h
  | cons k v rest =>
    simp only [extract_items] at h
    have hm := extractEntries_main [] (EntryList.cons k v rest) g h
    have hpw := hm.2.2 hu
    rw [List.pairwise_map]
    exact hpw

/-- Every grid of a successfully constructed ParameterGrid is nonempty
with nonempty paths and value lists. -/
theorem mk_items_base (spec : GridSpec) (items : List GridItems)
    (h : mkParameterGrid spec = Except.ok items) :
    ∀ g ∈ items, g ≠ [] ∧ ∀ pr ∈ g, pr.1 ≠ [] ∧ pr.2 ≠ [] := by
  intro g hg
  cases spec with
  | other => simp [mkParameterGrid] at h
  | dict gd =>
    simp only [mkParameterGrid] at h
    cases hx : extract_items gd with
    | error e => rw [hx] at h; cases h
    | ok out =>
      rw [hx] at h
      cases h
      simp only [List.mem_singleton] at hg
      subst hg
      exact extract_items_base gd g hx
  | glist gs =>
    have hf := mapME_ok_forall2 _ _ _ h
    obtain ⟨gg, _, hgg⟩ := forall2_mem_right _ _ _ hf g hg
    exact extract_items_base gg g hgg

/-- Every grid of a successfully constructed ParameterGrid over unique
keys satisfies the full invariant. -/
theorem mk_items_good (spec : GridSpec) (items : List GridItems)
    (hu : uniqKeysSpec spec = true) (h : mkParameterGrid spec = Except.ok items) :
    ∀ g ∈ items, GoodGrid g := by
  intro g hg
  cases spec with
  | other => simp [mkParameterGrid] at h
  | dict gd =>
    simp only [mkParameterGrid] at h
    cases hx : extract_items gd with
    | error e => rw [hx] at h; cases h
    | ok out =>
      rw [hx] at h
      cases h
      simp only [List.mem_singleton] at hg
      subst hg
      exact extract_items_good gd g (by simpa [uniqKeysSpec] using hu) hx
  | glist gs =>
    have hf := mapME_ok_forall2 _ _ _ h
    obtain ⟨gg, hggm, hgg⟩ := forall2_mem_right _ _ _ hf g hg
    have hugg : uniqKeysEntries gg = true := by
      simp only [uniqKeysSpec, List.all_eq_true] at hu
      exact hu gg hggm
    exact extract_items_good gg g hugg hgg

/-- Iteration of one good grid succeeds and yields exactly its
closed-form count of combinations. -/
theorem iterGrid_ok (g : GridItems) (h : GoodGrid g) :
    ∃ l, iterGrid g = Except.ok l ∧ l.length = gridCount g := by
  obtain ⟨hne, hprs, hpw⟩ := h
  have hkeys1 : ∀ p ∈ g.map Prod.fst, p ≠ [] := by
    intro p hp
    obtain ⟨pr, hpr, hpe⟩ := List.mem_map.mp hp
    rw [← hpe]
    exact (hprs pr hpr).1
  have hkeys2 : List.Pairwise (fun a b => ¬ leadsInto a b) (g.map Prod.fst) := by
    refine hpw.imp ?_
    intro a b hab
    exact hab.1
  obtain ⟨l, hl⟩ := mapME_ok_of_forall _ (cartProd (g.map Prod.snd))
    (fun tup _ => generate_params_ok (g.map Prod.fst) tup hkeys1 hkeys2)
  refine ⟨l, hl, ?_⟩
  have hf2 := mapME_ok_forall2 _ _ _ hl
  rw [← List.Forall₂.length_eq hf2, cartProd_length, List.map_map]
  rfl

/-- Iteration of a list of good grids succeeds and yields exactly the
closed-form total. -/
theorem iterPG_ok (items : List GridItems) (h : ∀ g ∈ items, GoodGrid g) :
    ∃ l, iterPG items = Except.ok l ∧ l.length = prefixCount items := by
  induction items with
  | nil => exact ⟨[], rfl, rfl⟩
  | cons g rest ih =>
    obtain ⟨lg, hlg, hlen⟩ := iterGrid_ok g (h g (List.mem_cons_self _ _))
    obtain ⟨l2, hl2, hlen2⟩ := ih (fun x hx => h x (List.mem_cons_of_mem _ hx))
    cases hbs : mapME iterGrid rest with
    | error e => rw [iterPG, hbs] at hl2; cases hl2
    | ok bs =>
      rw [iterPG, hbs] at hl2
      cases hl2
      refine ⟨lg ++ bs.flatten, ?_, ?_⟩
      · simp [iterPG, mapME, hlg, hbs]
      · simp only [List.length_append, hlen, hlen2, prefixCount, List.map_cons, List.sum_cons]

/-- Claim C2: for every valid GridSpec (a dict or list of dicts with
unique keys at every level) that constructs successfully, the closed-form
length (sum over grids of the product of value-list lengths) equals the
number of combinations produced by exhausting iteration. -/
theorem c2_length_equals_iteration_count (spec : GridSpec) (items : List GridItems)
    (h1 : uniqKeysSpec spec = true) (h2 : mkParameterGrid spec = Except.ok items) :
    ∃ l n, iterPG items = Except.ok l ∧ lenPG items = Except.ok n ∧ n = l.length := by
  have hgood := mk_items_good spec items h1 h2
  obtain ⟨l, hl, hlen⟩ := iterPG_ok items hgood
  exact ⟨l, prefixCount items, hl,
    lenPG_ok items (fun g hg => (hgood g hg).1), hlen.symm⟩

/-- Witness for C2 at the two-grid example. -/
theorem c2_length_equals_iteration_count_witness :
    ∃ l n, iterPG [g41, g42] = Except.ok l ∧ lenPG [g41, g42] = Except.ok n ∧
      n = l.length :=
  c2_length_equals_iteration_count spec4 [g41, g42] rfl rfl

/-- Claim C10: every grid of a successfully constructed ParameterGrid
contributes at least one (path, value list) pair, so the reduce with no
initial value inside the len protocol (and the per-grid subtotal of the
getitem method) never runs on an empty sequence: its failure branch is
unreachable after construction, and the length computation succeeds. -/
theorem c10_normalized_grids_nonempty (spec : GridSpec) (items : List GridItems)
    (h : mkParameterGrid spec = Except.ok items) :
    (∀ g ∈ items, g ≠ [] ∧ gridSize g = Except.ok (gridCount g)) ∧
    ∃ n, lenPG items = Except.ok n := by
  have hb := mk_items_base spec items h
  refine ⟨?_, prefixCount items, lenPG_ok items (fun g hg => (hb g hg).1)⟩
  intro g hg
  exact ⟨(hb g hg).1, gridSize_ok g (hb g hg).1⟩

/-- Witness for C10 at the two-grid example. -/
theorem c10_normalized_grids_nonempty_witness :
    (∀ g ∈ [g41, g42], g ≠ [] ∧ gridSize g = Except.ok (gridCount g)) ∧
    ∃ n, lenPG [g41, g42] = Except.ok n :=
  c10_normalized_grids_nonempty spec4 [g41, g42] rfl

mutual
/-- Extraction succeeds on a dict-or-list-shaped value with no empty
dict and no empty value list below. -/
theorem extractVal_ok_of (ck : List String) (k : String) (v : GridVal)
    (h1 : dictListOnlyVal v = true) (h2 : hasEmptyVal v = false) :
    ∃ out, extractVal ck k v = Except.ok out := by
  cases v with
  | dict entries =>
    cases entries with
    | nil => simp [hasEmptyVal] at h2
    | cons k2 v2 rest =>
      obtain ⟨out, hout⟩ := extractEntries_ok_of (ck ++ [k]) (EntryList.cons k2 v2 rest)
        (by simpa [dictListOnlyVal] using h1) (by simpa [hasEmptyVal] using h2)
      exact ⟨out, by simp [extractVal, hout]⟩
  | vlist vals =>
    cases vals with
    | nil => simp [hasEmptyVal, List.isEmpty] at h2
    | cons x xs => exact ⟨[(ck ++ [k], x :: xs)], rfl⟩
  | other => simp [dictListOnlyVal] at h1

/-- Entry-loop version of extractVal_ok_of. -/
theorem extractEntries_ok_of (ck : List String) (es : EntryList)
    (h1 : dictListOnlyEntries es = true) (h2 : hasEmptyEntries es = false) :
    ∃ out, extractEntries ck es = Except.ok out := by
  cases es with
  | nil => exact ⟨[], rfl⟩
  | cons k v rest =>
    simp only [dictListOnlyEntries, Bool.and_eq_true] at h1
    simp only [hasEmptyEntries, Bool.or_eq_false_iff] at h2
    obtain ⟨a, ha⟩ := extractVal_ok_of ck k v h1.1 h2.1
    obtain ⟨b, hb⟩ := extractEntries_ok_of ck rest h1.2 h2.2
    exact ⟨a ++ b, by simp [extractEntries, ha, hb]⟩
end

mutual
/-- Extraction fails with ValueError on a dict-or-list-shaped value
containing an empty dict or an empty value list. -/
theorem extractVal_err (ck : List String) (k : String) (v : GridVal)
    (h1 : dictListOnlyVal v = true) (h2 : hasEmptyVal v = true) :
    extractVal ck k v = Except.error PGError.valueError := by
  cases v with
  | dict entries =>
    cases entries with
    | nil => simp [extractVal]
    | cons k2 v2 rest =>
      have he := extractEntries_err (ck ++ [k]) (EntryList.cons k2 v2 rest)
        (by simpa [dictListOnlyVal] using h1) (by simpa [hasEmptyVal] using h2)
      simp [extractVal, he]
  | vlist vals =>
    cases vals with
    | nil => simp [extractVal]
    | cons x xs => simp [hasEmptyVal, List.isEmpty] at h2
  | other => simp [dictListOnlyVal] at h1

/-- Entry-loop version of extractVal_err: the first entry with an empty
dict or list below it raises, the ones before it succeed. -/
theorem extractEntries_err (ck : List String) (es : EntryList)
    (h1 : dictListOnlyEntries es = true) (h2 : hasEmptyEntries es = true) :
    extractEntries ck es = Except.error PGError.valueError := by
  cases es with
  | nil => simp [hasEmptyEntries] at h2
  | cons k v rest =>
    simp only [dictListOnlyEntries, Bool.and_eq_true] at h1
    simp only [hasEmptyEntries, Bool.or_eq_true] at h2
    cases hev : hasEmptyVal v with
    | true =>
      have ha := extractVal_err ck k v h1.1 hev
      simp [extractEntries, ha]
    | false =>
      have h2r : hasEmptyEntries rest = true := by
        rcases h2 with hx | hx
        · rw [hev] at hx; cases hx
        · exact hx
      obtain ⟨a, ha⟩ := extractVal_ok_of ck k v h1.1 hev
      have hb := extractEntries_err ck rest h1.2 h2r
      simp [extractEntries, ha, hb]
end

/-- extract_items fails with ValueError on a grid that is empty or
contains an empty dict or value list (given dict-or-list shapes only). -/
theorem extract_items_err (gg : EntryList)
    (h1 : dictListOnlyEntries gg = true) (h2 : hasEmptyGrid gg = true) :
    extract_items gg = Except.error PGError.valueError := by
  cases gg with
  | nil => rfl
  | cons k v rest =>
    have h2e : hasEmptyEntries (EntryList.cons k v rest) = true := by
      simpa [hasEmptyGrid] using h2
    simpa [extract_items] using extractEntries_err [] _ h1 h2e

/-- extract_items succeeds on a grid with dict-or-list shapes and no
empty dict or value list anywhere. -/
theorem extract_items_ok_of (gg : EntryList)
    (h1 : dictListOnlyEntries gg = true) (h2 : hasEmptyGrid gg = false) :
    ∃ out, extract_items gg = Except.ok out := by
  cases gg with
  | nil => simp [hasEmptyGrid] at h2
  | cons k v rest =>
    obtain ⟨out, hout⟩ := extractEntries_ok_of [] (EntryList.cons k v rest) h1
      (by simpa [hasEmptyGrid] using h2)
    exact ⟨out, by simpa [extract_items] using hout⟩

/-- Mapping extract_items over a grid list fails with ValueError at the
first grid containing an empty dict or value list. -/
theorem mapME_extract_err (gs : List EntryList)
    (h1 : ∀ gg ∈ gs, dictListOnlyEntries gg = true)
    (h2 : ∃ gg ∈ gs, hasEmptyGrid gg = true) :
    mapME extract_items gs = Except.error PGError.valueError := by
  induction gs with
  | nil =>
    obtain ⟨gg, hm, _⟩ := h2
    cases hm
  | cons g0 rest ih =>
    cases heg : hasEmptyGrid g0 with
    | true =>
      have he := extract_items_err g0 (h1 g0 (List.mem_cons_self _ _)) heg
      simp [mapME, he]
    | false =>
      obtain ⟨out, hout⟩ := extract_items_ok_of g0 (h1 g0 (List.mem_cons_self _ _)) heg
      have h2r : ∃ gg ∈ rest, hasEmptyGrid gg = true := by
        obtain ⟨gg, hm, hgg⟩ := h2
        rcases List.mem_cons.mp hm with heq | hmem
        · subst heq
          rw [heg] at hgg
          cases hgg
        · exact ⟨gg, hmem, hgg⟩
      have hrest := ih (fun x hx => h1 x (List.mem_cons_of_mem _ hx)) h2r
      simp [mapME, hout, hrest]

/-- Claim C8: construction fails with the empty-grid ValueError whenever
the input (a dict or a list of dicts, all values being dicts or lists)
contains an empty mapping at any level or an empty value list, while
the empty list of grids is accepted and has length 0. -/
theorem c8_empty_input_rejected (spec : GridSpec)
    (h1 : dictListOnlySpec spec = true) (h2 : hasEmptySpec spec = true) :
    mkParameterGrid spec = Except.error PGError.valueError ∧
    mkParameterGrid (GridSpec.glist []) = Except.ok [] ∧
    lenPG [] = Except.ok 0 := by
  refine ⟨?_, rfl, rfl⟩
  cases spec with
  | other => simp [dictListOnlySpec] at h1
  | dict gd =>
    have he := extract_items_err gd (by simpa [dictListOnlySpec] using h1)
      (by simpa [hasEmptySpec] using h2)
    simp [mkParameterGrid, he]
  | glist gs =>
    simp only [dictListOnlySpec, List.all_eq_true] at h1
    simp only [hasEmptySpec, List.any_eq_true] at h2
    exact mapME_extract_err gs h1 h2

/-- Witness for C8 at the lone empty dict. -/
theorem c8_empty_input_rejected_witness :
    mkParameterGrid (GridSpec.dict EntryList.nil) = Except.error PGError.valueError ∧
    mkParameterGrid (GridSpec.glist []) = Except.ok [] ∧
    lenPG [] = Except.ok 0 :=
  c8_empty_input_rejected (GridSpec.dict EntryList.nil) rfl rfl

/-- Nat version of the digit loop, used to reason about nonnegative
indices (Python floor division and remainder coincide with Nat division
and remainder there). -/
def decomposeN : List (List PyVal) → Nat → List PyVal × Nat
  | [], i => ([], i)
  | vs :: rest, i =>
    ((vs.getD ((decomposeN rest i).2 % vs.length) (PyVal.int 0)) :: (decomposeN rest i).1,
     (decomposeN rest i).2 / vs.length)

/-- Python remainder of two nonnegative integers is the Nat remainder. -/
theorem ofNat_fmod_eq (m n : Nat) :
    Int.fmod (m : Int) (n : Int) = ((m % n : Nat) : Int) := by
  rw [Int.fmod_eq_emod _ (Int.natCast_nonneg n)]
  norm_cast

/-- Python floor division of two nonnegative integers is the Nat
division. -/
theorem ofNat_fdiv_eq (m n : Nat) :
    Int.fdiv (m : Int) (n : Int) = ((m / n : Nat) : Int) :=
  (Int.ofNat_fdiv m n).symm

/-- On a nonnegative index the Int digit loop is the Nat digit loop. -/
theorem decompose_ofNat (vss : List (List PyVal)) (i : Nat) :
    decompose vss (i : Int) =
      ((decomposeN vss i).1, ((decomposeN vss i).2 : Int)) := by
  induction vss generalizing i with
  | nil => rfl
  | cons vs rest ih =>
    simp only [decompose, decomposeN, ih, pickVal]
    rw [ofNat_fmod_eq, ofNat_fdiv_eq]
    simp
    have htn : ((((decomposeN rest i).2 : Int)) % (vs.length : Int)).toNat
        = (decomposeN rest i).2 % vs.length := by omega
    rw [htn]

/-- The final index after the digit loop is the floor quotient by the
whole product. -/
theorem decomposeN_snd (vss : List (List PyVal)) (i : Nat) :
    (decomposeN vss i).2 = i / (vss.map List.length).prod := by
  induction vss generalizing i with
  | nil => simp [decomposeN]
  | cons vs rest ih =>
    simp only [decomposeN, ih, List.map_cons, List.prod_cons]
    rw [Nat.div_div_eq_div_mul, Nat.mul_comm]

/-- The selected digits only depend on the index modulo the whole
product. -/
theorem decomposeN_fst_mod (vss : List (List PyVal)) (i : Nat) :
    (decomposeN vss (i % (vss.map List.length).prod)).1 = (decomposeN vss i).1 := by
  induction vss generalizing i with
  | nil => rfl
  | cons vs rest ih =>
    simp only [decomposeN, List.map_cons, List.prod_cons]
    have hdvd : (rest.map List.length).prod ∣ vs.length * (rest.map List.length).prod :=
      dvd_mul_left _ _
    congr 1
    · congr 1
      rw [decomposeN_snd, decomposeN_snd, Nat.mul_comm vs.length,
        Nat.mod_mul_right_div_self, Nat.mod_mod_of_dvd _ dvd_rfl]
    · rw [← ih (i % (vs.length * (rest.map List.length).prod)),
        Nat.mod_mod_of_dvd i hdvd, ih]

/-- At index 0 the digit loop selects the first value of every list and
ends with index 0. -/
theorem decomposeN_zero (vss : List (List PyVal)) :
    decomposeN vss 0 = (vss.map (fun vs => vs.getD 0 (PyVal.int 0)), 0) := by
  induction vss with
  | nil => rfl
  | cons vs rest ih => simp [decomposeN, ih]

/-- A product of positive naturals is positive. -/
theorem one_le_prod_nat (l : List Nat) (h : ∀ x ∈ l, 1 ≤ x) : 1 ≤ l.prod := by
  induction l with
  | nil => simp
  | cons a rest ih =>
    rw [List.prod_cons]
    have ha := h a (List.mem_cons_self _ _)
    have hr := ih (fun x hx => h x (List.mem_cons_of_mem _ hx))
    calc 1 = 1 * 1 := rfl
    _ ≤ a * rest.prod := Nat.mul_le_mul ha hr

/-- A good grid has at least one combination. -/
theorem goodGrid_count_pos (g : GridItems) (h : GoodGrid g) : 1 ≤ gridCount g := by
  apply one_le_prod_nat
  intro x hx
  obtain ⟨pr, hpr, hpe⟩ := List.mem_map.mp hx
  have hv := (h.2.1 pr hpr).2
  rw [← hpe]
  exact List.length_pos.mpr hv

/-- Indexing the flattening of equal-length blocks: block i / L at
offset i mod L. -/
theorem flatten_get_uniform {β : Type} (blocks : List (List β)) (L : Nat)
    (hL : ∀ b ∈ blocks, b.length = L) :
    ∀ i, i < blocks.length * L →
      ∃ blk, blocks.get? (i / L) = some blk ∧
        blocks.flatten.get? i = blk.get? (i % L) := by
  induction blocks with
  | nil =>
    intro i hi
    simp at hi
  | cons b bs ih =>
    intro i hi
    have hbL : b.length = L := hL b (List.mem_cons_self _ _)
    by_cases hiL : i < L
    · refine ⟨b, ?_, ?_⟩
      · rw [Nat.div_eq_of_lt hiL]
        rfl
      · rw [List.flatten_cons, List.get?_append (by omega), Nat.mod_eq_of_lt hiL]
    · push_neg at hiL
      have hL0 : 0 < L := by
        rcases Nat.eq_zero_or_pos L with h0 | h0
        · subst h0
          rw [Nat.mul_zero] at hi
          omega
        · exact h0
      obtain ⟨j, rfl⟩ : ∃ j, i = j + L := ⟨i - L, by omega⟩
      have hj : j < bs.length * L := by
        rw [List.length_cons, Nat.succ_mul] at hi
        exact Nat.add_lt_add_iff_right.mp hi
      obtain ⟨blk, h1, h2⟩ := ih (fun x hx => hL x (List.mem_cons_of_mem _ hx)) j hj
      refine ⟨blk, ?_, ?_⟩
      · rw [Nat.add_div_right _ hL0, List.get?_cons_succ]
        exact h1
      · rw [List.flatten_cons, List.get?_append_right (by omega), Nat.add_mod_right]
        rw [hbL, Nat.add_sub_cancel]
        exact h2

/-- Transfer of list indexing along a Forall₂ relation. -/
theorem forall2_get (R : α → β → Prop) (l1 : List α) (l2 : List β)
    (h : List.Forall₂ R l1 l2) :
    ∀ (i : Nat) (a : α), l1.get? i = some a →
      ∃ b, l2.get? i = some b ∧ R a b := by
  induction h with
  | nil =>
    intro i a ha
    cases ha? : ([] : List α).get? i <;> simp at ha
  | @cons a2 b2 la lb hr hrest ih =>
    intro i a ha
    cases i with
    | zero =>
      cases ha
      exact ⟨b2, rfl, hr⟩
    | succ i2 => exact ih i2 a ha

/-- Mixed-radix correctness: the tuple at position i of the cartesian
product is exactly the tuple the digit loop selects for index i. -/
theorem cartProd_get (vss : List (List PyVal)) :
    ∀ i, i < (vss.map List.length).prod →
      (cartProd vss).get? i = some (decomposeN vss i).1 := by
  induction vss with
  | nil =>
    intro i hi
    simp at hi
    subst hi
    rfl
  | cons vs rest ih =>
    intro i hi
    rw [List.map_cons, List.prod_cons] at hi
    have hblocks : ∀ b ∈ vs.map (fun v => (cartProd rest).map (fun t => v :: t)),
        b.length = (rest.map List.length).prod := by
      intro b hb
      obtain ⟨v, hv, rfl⟩ := List.mem_map.mp hb
      rw [List.length_map, cartProd_length]
    have hi2 : i < (vs.map (fun v => (cartProd rest).map (fun t => v :: t))).length *
        (rest.map List.length).prod := by
      rw [List.length_map]
      exact hi
    obtain ⟨blk, h1, h2⟩ := flatten_get_uniform _ _ hblocks i hi2
    have hP0 : 0 < (rest.map List.length).prod := by
      rcases Nat.eq_zero_or_pos (rest.map List.length).prod with h0 | h0
      · rw [h0, Nat.mul_zero] at hi
        omega
      · exact h0
    have hdiv : i / (rest.map List.length).prod < vs.length :=
      (Nat.div_lt_iff_lt_mul hP0).mpr hi
    rw [List.get?_map] at h1
    cases hveq : vs.get? (i / (rest.map List.length).prod) with
    | none =>
      rw [hveq] at h1
      cases h1
    | some v =>
      rw [hveq] at h1
      cases h1
      have hv2 : vs.getD ((decomposeN rest i).2 % vs.length) (PyVal.int 0) = v := by
        rw [decomposeN_snd, Nat.mod_eq_of_lt hdiv]
        have hgd := List.getD_eq_get? vs (i / (rest.map List.length).prod) (PyVal.int 0)
        rw [hveq] at hgd
        simpa using hgd
      rw [cartProd, h2, List.get?_map,
        ih (i % (rest.map List.length).prod) (Nat.mod_lt _ hP0)]
      simp only [decomposeN, Option.map_some, hv2, decomposeN_fst_mod]
      rfl

/-- After the yield, the loop keeps walking with index 0: every further
grid takes the else branch and yields its index-0 combination. -/
theorem getitemLoop_zeros (rs : List GridItems) (h : ∀ x ∈ rs, GoodGrid x) :
    ∃ cs, getitemLoop rs (((0 : Nat)) : Int) = Except.ok cs ∧
      List.Forall₂ (fun g2 cmb => ∃ l2, iterGrid g2 = Except.ok l2 ∧ l2.get? 0 = some cmb)
        rs cs := by
  induction rs with
  | nil => exact ⟨[], rfl, List.Forall₂.nil⟩
  | cons g rs2 ih =>
    obtain ⟨cs, hcs, hf⟩ := ih (fun x hx => h x (List.mem_cons_of_mem _ hx))
    have hgood := h g (List.mem_cons_self _ _)
    have hg := gridSize_ok g hgood.1
    have hpos : 1 ≤ gridCount g := goodGrid_count_pos g hgood
    have hprod : ((g.map Prod.snd).map List.length).prod = gridCount g := by
      rw [List.map_map]
      rfl
    obtain ⟨l, hl, hlen⟩ := iterGrid_ok g hgood
    have hcart : (cartProd (g.map Prod.snd)).get? 0 =
        some (decomposeN (g.map Prod.snd) 0).1 := by
      apply cartProd_get
      rw [hprod]
      omega
    have hforall := mapME_ok_forall2 _ _ _ hl
    obtain ⟨c, hcget, hcrel⟩ := forall2_get _ _ _ hforall 0 _ hcart
    have hcrel2 : generate_params (g.map Prod.fst) (decomposeN (g.map Prod.snd) 0).1 =
        Except.ok c := hcrel
    refine ⟨c :: cs, ?_, List.Forall₂.cons ⟨l, hl, hcget⟩ hf⟩
    have hnotle : ¬ ((gridCount g : Int) ≤ (((0 : Nat)) : Int)) := by
      omega
    have hz : (decomposeN (g.map Prod.snd) 0).2 = 0 := by
      rw [decomposeN_zero]
    simp only [getitemLoop, hg, if_neg hnotle, decompose_ofNat, hz, hcrel2, hcs]

/-- When the index lands in the first grid, the loop yields the
combination of that grid at the index (in grid iteration order) and
then the index-0 combination of every following grid. -/
theorem getitemLoop_hit (g : GridItems) (rs : List GridItems) (iloc : Nat)
    (hgood : GoodGrid g) (hrs : ∀ x ∈ rs, GoodGrid x) (hloc : iloc < gridCount g) :
    ∃ c cs l, getitemLoop (g :: rs) (((iloc : Nat)) : Int) = Except.ok (c :: cs) ∧
      iterGrid g = Except.ok l ∧ l.get? iloc = some c ∧
      List.Forall₂ (fun g2 cmb => ∃ l2, iterGrid g2 = Except.ok l2 ∧ l2.get? 0 = some cmb)
        rs cs := by
  have hg := gridSize_ok g hgood.1
  have hprod : ((g.map Prod.snd).map List.length).prod = gridCount g := by
    rw [List.map_map]
    rfl
  obtain ⟨l, hl, hlen⟩ := iterGrid_ok g hgood
  have hcart : (cartProd (g.map Prod.snd)).get? iloc =
      some (decomposeN (g.map Prod.snd) iloc).1 := by
    apply cartProd_get
    rw [hprod]
    exact hloc
  have hforall := mapME_ok_forall2 _ _ _ hl
  obtain ⟨c, hcget, hcrel⟩ := forall2_get _ _ _ hforall iloc _ hcart
  have hcrel2 : generate_params (g.map Prod.fst) (decomposeN (g.map Prod.snd) iloc).1 =
      Except.ok c := hcrel
  obtain ⟨cs, hcs, hf⟩ := getitemLoop_zeros rs hrs
  refine ⟨c, cs, l, ?_, hl, hcget, hf⟩
  have hnotle : ¬ ((gridCount g : Int) ≤ (((iloc : Nat)) : Int)) := by
    omega
  have hz : (decomposeN (g.map Prod.snd) iloc).2 = 0 := by
    rw [decomposeN_snd, hprod]
    exact Nat.div_eq_of_lt hloc
  simp only [getitemLoop, hg, if_neg hnotle, decompose_ofNat, hz, hcrel2, hcs]

/-- Grids whose total size lies at or below the index are skipped, the
index being reduced by each subtotal. -/
theorem getitemLoop_skip (pre rs : List GridItems) (i : Nat)
    (h1 : ∀ g ∈ pre, g ≠ []) (h2 : prefixCount pre ≤ i) :
    getitemLoop (pre ++ rs) ((i : Nat) : Int) =
      getitemLoop rs (((i - prefixCount pre : Nat)) : Int) := by
  induction pre generalizing i with
  | nil => simp [prefixCount]
  | cons g pr ih =>
    have hg := gridSize_ok g (h1 g (List.mem_cons_self _ _))
    have hcount : prefixCount (g :: pr) = gridCount g + prefixCount pr := by
      simp [prefixCount]
    have hle : (gridCount g : Int) ≤ ((i : Nat) : Int) := by
      omega
    have hsub : ((i : Nat) : Int) - (gridCount g : Int) =
        (((i - gridCount g : Nat)) : Int) := by
      omega
    rw [List.cons_append]
    simp only [getitemLoop, hg, if_pos hle, hsub]
    rw [ih (i - gridCount g) (fun x hx => h1 x (List.mem_cons_of_mem _ hx)) (by omega)]
    congr 1
    omega

/-- prefixCount distributes over append. -/
theorem prefixCount_append (a b : List GridItems) :
    prefixCount (a ++ b) = prefixCount a + prefixCount b := by
  simp [prefixCount]

/-- prefixCount of a cons. -/
theorem prefixCount_cons (g : GridItems) (b : List GridItems) :
    prefixCount (g :: b) = gridCount g + prefixCount b := by
  simp [prefixCount]

/-- A Forall₂ whose left side is an append decomposes on the right. -/
theorem forall2_append_cons (R : α → β → Prop) (pre : List α) (g : α) (rest : List α)
    (l2 : List β) (h : List.Forall₂ R (pre ++ g :: rest) l2) :
    ∃ bpre bg brest, l2 = bpre ++ bg :: brest ∧ List.Forall₂ R pre bpre ∧
      R g bg ∧ List.Forall₂ R rest brest := by
  induction pre generalizing l2 with
  | nil =>
    cases h with
    | cons hr hrest => exact ⟨[], _, _, rfl, List.Forall₂.nil, hr, hrest⟩
  | cons a pr ih =>
    cases h with
    | cons hr hrest =>
      obtain ⟨bpre, bg, brest, rfl, hf1, hf2, hf3⟩ := ih _ hrest
      exact ⟨_ :: bpre, bg, brest, rfl, List.Forall₂.cons hr hf1, hf2, hf3⟩

/-- The iteration blocks of good grids have the closed-form sizes. -/
theorem blocks_sum (pre : List GridItems) (bpre : List (List PDict))
    (hgood : ∀ x ∈ pre, GoodGrid x)
    (h : List.Forall₂ (fun g2 b => iterGrid g2 = Except.ok b) pre bpre) :
    (bpre.map List.length).sum = prefixCount pre := by
  induction h with
  | nil => rfl
  | @cons g2 b pr br hr hrest ih =>
    obtain ⟨l, hl, hlen⟩ := iterGrid_ok g2 (hgood g2 (List.mem_cons_self _ _))
    rw [hr] at hl
    cases hl
    rw [List.map_cons, List.sum_cons, prefixCount_cons,
      ih (fun x hx => hgood x (List.mem_cons_of_mem _ hx)), hlen]

/-- Indexing a flattening past a prefix of blocks of known total
length. -/
theorem flatten_get_skip (bpre tail : List (List PDict)) (r : Nat) :
    (bpre ++ tail).flatten.get? ((bpre.map List.length).sum + r) =
      tail.flatten.get? r := by
  induction bpre with
  | nil => simp
  | cons b bs ih =>
    simp only [List.cons_append, List.flatten_cons, List.map_cons, List.sum_cons]
    rw [Nat.add_assoc, List.get?_append_right (by omega)]
    rw [Nat.add_sub_cancel_left]
    exact ih

/-- Claim C9: the getitem method is a generator whose grid loop has no
break after its yield. For a spec with more than one grid and an
in-range index landing in a non-final grid, exhausting the subscript
generator therefore yields more than one value: first the combination at
the requested iteration position, then the index-0 combination of every
subsequent grid. -/
theorem c9_subscript_yields_all_later_grids (spec : GridSpec)
    (items pre rest : List GridItems) (g : GridItems) (iloc : Nat)
    (h1 : uniqKeysSpec spec = true) (h2 : mkParameterGrid spec = Except.ok items)
    (h3 : items = pre ++ g :: rest) (h4 : rest ≠ []) (h5 : iloc < gridCount g) :
    ∃ c cs l,
      getitemPG items (IndexArg.int (((prefixCount pre + iloc : Nat)) : Int)) =
        Except.ok (c :: cs) ∧
      iterPG items = Except.ok l ∧
      l.get? (prefixCount pre + iloc) = some c ∧
      List.Forall₂ (fun g2 cmb => ∃ l2, iterGrid g2 = Except.ok l2 ∧ l2.get? 0 = some cmb)
        rest cs ∧
      1 ≤ cs.length := by
  have hgood := mk_items_good spec items h1 h2
  have hgoodpre : ∀ x ∈ pre, GoodGrid x := by
    intro x hx
    exact hgood x (by rw [h3]; exact List.mem_append_left _ hx)
  have hgoodg : GoodGrid g := by
    apply hgood
    rw [h3]
    exact List.mem_append_right _ (List.mem_cons_self _ _)
  have hgoodrest : ∀ x ∈ rest, GoodGrid x := by
    intro x hx
    apply hgood
    rw [h3]
    exact List.mem_append_right _ (List.mem_cons_of_mem _ hx)
  have hlen : lenPG items = Except.ok (prefixCount items) :=
    lenPG_ok items (fun x hx => (hgood x hx).1)
  have htotal : prefixCount items =
      prefixCount pre + gridCount g + prefixCount rest := by
    rw [h3, prefixCount_append, prefixCount_cons]
    omega
  -- the getitem side
  obtain ⟨c, cs, l, hloop, hiter, hgetl, hf⟩ :=
    getitemLoop_hit g rest iloc hgoodg hgoodrest h5
  have hnotneg : ¬ ((((prefixCount pre + iloc : Nat)) : Int) < 0) := by
    push_cast
    omega
  have hnotover : ¬ ((prefixCount items : Int) ≤
      (((prefixCount pre + iloc : Nat)) : Int)) := by
    push_cast
    omega
  have hskip : getitemLoop items (((prefixCount pre + iloc : Nat)) : Int) =
      Except.ok (c :: cs) := by
    rw [h3, getitemLoop_skip pre (g :: rest) (prefixCount pre + iloc)
      (fun x hx => (hgoodpre x hx).1) (by omega)]
    rw [Nat.add_sub_cancel_left]
    exact hloop
  -- the iteration side
  obtain ⟨blocks, hblocks⟩ := mapME_ok_of_forall iterGrid items
    (fun x hx => (iterGrid_ok x (hgood x hx)).imp (fun _ hp => hp.1))
  have hforall := mapME_ok_forall2 _ _ _ hblocks
  have hiterPG : iterPG items = Except.ok blocks.flatten := by
    simp [iterPG, hblocks]
  rw [h3] at hforall
  obtain ⟨bpre, bg, brest, rfl, hf1, hf2, hf3⟩ := forall2_append_cons _ _ _ _ _ hforall
  have hbg : bg = l := by
    rw [hiter] at hf2
    exact (Except.ok.injEq _ _).mp hf2.symm
  have hsum : (bpre.map List.length).sum = prefixCount pre :=
    blocks_sum pre bpre hgoodpre hf1
  have hlenl : l.length = gridCount g := by
    obtain ⟨l2, hl2, hlen2⟩ := iterGrid_ok g hgoodg
    rw [hiter] at hl2
    cases hl2
    exact hlen2
  have hget : (bpre ++ bg :: brest).flatten.get? (prefixCount pre + iloc) = some c := by
    rw [← hsum, flatten_get_skip, List.flatten_cons, hbg,
      List.get?_append (by rw [hlenl]; exact h5)]
    exact hgetl
  refine ⟨c, cs, (bpre ++ bg :: brest).flatten, ?_, hiterPG, hget, hf, ?_⟩
  · simp only [getitemPG, hlen, if_neg hnotneg, if_neg hnotover]
    exact hskip
  · have hle := List.Forall₂.length_eq hf
    have : 0 < rest.length := List.length_pos.mpr h4
    omega

/-- Witness for C9 at the two-grid example: index 0 lies in the first
grid and the subscript generator also yields the index-0 combination
of the second grid. -/
theorem c9_subscript_yields_all_later_grids_witness :
    ∃ c cs l,
      getitemPG [g41, g42] (IndexArg.int (((prefixCount [] + 0 : Nat)) : Int)) =
        Except.ok (c :: cs) ∧
      iterPG [g41, g42] = Except.ok l ∧
      l.get? (prefixCount [] + 0) = some c ∧
      List.Forall₂ (fun g2 cmb => ∃ l2, iterGrid g2 = Except.ok l2 ∧ l2.get? 0 = some cmb)
        [g42] cs ∧
      1 ≤ cs.length :=
  c9_subscript_yields_all_later_grids spec4 [g41, g42] [] [g42] g41 0
    rfl rfl rfl (by simp) (by decide)
